import Mathlib

/-!
# Verification of the hexr in-memory edit engine

Shallow embedding of the core of the `hexr` hex editor: the reversible
operation log (`src/undo_redo.rs`), the bounded undo/redo stack
(`src/undo_redo.rs`), and the edit buffer with cursor, modes and mutation
operations (`src/editor.rs`).

Bytes are modelled as `Nat`; the code treats byte values opaquely except for
nibble assembly, where both operands are below 16 so no 8-bit overflow can
occur.  Rust `Vec<u8>` becomes `List Nat`.  Rust operations that can panic
(out-of-bounds indexing, `Vec::remove`, `Vec::insert`, `splice` with an
invalid range) are embedded as `Option`-returning functions, `none` marking
the panic.  `usize` subtraction appears only in positions where the source
guards against underflow or uses `saturating_sub`, both of which coincide
with truncated `Nat` subtraction.
-/

/-- `EditOperation` from `src/undo_redo.rs` (lines 4-17): a tagged record of a
single reversible mutation. -/
inductive EditOperation where
  /-- Insert of a byte: position, old value (absent when nothing was there), new value. -/
  | insertByte (position : Nat) (old_value : Option Nat) (new_value : Nat)
  /-- Deletion of a byte: position, old value. -/
  | deleteByte (position : Nat) (old_value : Nat)
  /-- Replacement of a byte: position, old value, new value. -/
  | replaceByte (position : Nat) (old_value : Nat) (new_value : Nat)
  /-- Insert of a block of bytes: position, old values, new values. -/
  | insertBytes (position : Nat) (old_values : List Nat) (new_values : List Nat)
  /-- Deletion of a block of bytes: position, old values. -/
  | deleteBytes (position : Nat) (old_values : List Nat)
  /-- Replacement of a block of bytes: position, old values, new values. -/
  | replaceBytes (position : Nat) (old_values : List Nat) (new_values : List Nat)
  deriving DecidableEq, Repr

/-- `EditOperation::new_replace_byte` (undo_redo.rs lines 20-22). -/
def EditOperation.new_replace_byte (position : Nat) (old_value new_value : Nat) :
    EditOperation :=
  .replaceByte position old_value new_value

/-- Modelled from the spec: `EditOperation::new_insert_byte` is invoked by
`HexEditor::insert_byte` (editor.rs line 404) but its definition is absent
from `src/undo_redo.rs`.  Spec §3: "InsertOne(position, new_byte) — inverse is
delete-at-position", i.e. the record carries no old byte. -/
def EditOperation.new_insert_byte (position : Nat) (new_value : Nat) : EditOperation :=
  .insertByte position none new_value

/-- Modelled from the spec: `EditOperation::new_insert_bytes` is invoked by
`HexEditor::insert_bytes` (editor.rs line 433) but its definition is absent
from `src/undo_redo.rs`.  Spec §3: "InsertRange(position, new_bytes) — inverse
is delete of that many bytes at position", i.e. no old bytes are recorded. -/
def EditOperation.new_insert_bytes (position : Nat) (new_values : List Nat) : EditOperation :=
  .insertBytes position [] new_values

/-- `EditOperation::undo` (undo_redo.rs lines 24-59): apply the inverse action
to the byte buffer.  `none` models a Rust panic (out-of-range index). -/
def EditOperation.undo (op : EditOperation) (data : List Nat) : Option (List Nat) :=
  match op with
  | .insertByte position old_value _ =>
    match old_value with
    | some old_val =>
      -- data[position] = old_val
      if position < data.length then some (data.set position old_val) else none
    | none =>
      -- data.remove(position)
      if position < data.length then some (data.eraseIdx position) else none
  | .deleteByte position old_value =>
    -- data.insert(position, old_value)
    if position ≤ data.length then some (data.insertIdx position old_value) else none
  | .replaceByte position old_value _ =>
    -- data[position] = old_value
    if position < data.length then some (data.set position old_value) else none
  | .insertBytes position old_values _ =>
    if old_values = [] then
      -- data.truncate(position)
      some (data.take position)
    else
      let current_len := data.length
      let end_pos := min (position + old_values.length) current_len
      -- data.splice(position..end_pos, old_values); panics when position > end_pos
      if position ≤ end_pos then
        let spliced := data.take position ++ old_values ++ data.drop end_pos
        if end_pos < current_len then
          some (spliced.take (current_len - (current_len - end_pos) + old_values.length))
        else
          some spliced
      else none
  | .deleteBytes position old_values =>
    -- data.splice(position..position, old_values): pure insertion at position
    if position ≤ data.length then
      some (data.take position ++ old_values ++ data.drop position)
    else none
  | .replaceBytes position old_values _ =>
    -- data.splice(position..position + old_values.len(), old_values)
    if position + old_values.length ≤ data.length then
      some (data.take position ++ old_values ++ data.drop (position + old_values.length))
    else none

/-- `EditOperation::redo` (undo_redo.rs lines 61-100): apply the forward action
to the byte buffer.  `none` models a Rust panic. -/
def EditOperation.redo (op : EditOperation) (data : List Nat) : Option (List Nat) :=
  match op with
  | .insertByte position _ new_value =>
    some (if position < data.length then data.set position new_value else data ++ [new_value])
  | .deleteByte position _ =>
    some (if position < data.length then data.eraseIdx position else data)
  | .replaceByte position _ new_value =>
    some (if position < data.length then data.set position new_value else data)
  | .insertBytes position _ new_values =>
    some (if position ≤ data.length then
            data.take position ++ new_values ++ data.drop position
          else data ++ new_values)
  | .deleteBytes position old_values =>
    some (if position < data.length then
            data.take position ++ data.drop (min (position + old_values.length) data.length)
          else data)
  | .replaceBytes position _ new_values =>
    -- data.splice(position..position + new_values.len(), new_values)
    if position + new_values.length ≤ data.length then
      some (data.take position ++ new_values ++ data.drop (position + new_values.length))
    else none

/-- `UndoRedoStack` (undo_redo.rs lines 103-107).  Both logs are
most-recent-last, mirroring the `Vec` push/pop ends. -/
structure UndoRedoStack where
  undo_stack : List EditOperation
  redo_stack : List EditOperation
  max_operations : Nat
  deriving DecidableEq, Repr

/-- `UndoRedoStack::new` (undo_redo.rs lines 110-116). -/
def UndoRedoStack.new (max_operations : Nat) : UndoRedoStack :=
  { undo_stack := [], redo_stack := [], max_operations := max_operations }

/-- `UndoRedoStack::push` (undo_redo.rs lines 118-126): append the operation,
clear the redo log, evict the oldest entry when over capacity. -/
def UndoRedoStack.push (s : UndoRedoStack) (operation : EditOperation) : UndoRedoStack :=
  let u := s.undo_stack ++ [operation]
  let u := if u.length > s.max_operations then u.drop 1 else u
  { s with undo_stack := u, redo_stack := [] }

/-- `UndoRedoStack::undo` (undo_redo.rs lines 128-132): pop the most recent
operation and move it onto the redo log. -/
def UndoRedoStack.undo (s : UndoRedoStack) : Option EditOperation × UndoRedoStack :=
  match s.undo_stack.getLast? with
  | none => (none, s)
  | some op =>
    (some op, { s with undo_stack := s.undo_stack.dropLast,
                       redo_stack := s.redo_stack ++ [op] })

/-- `UndoRedoStack::redo` (undo_redo.rs lines 134-138): pop the most recent
redo entry and move it back onto the undo log. -/
def UndoRedoStack.redo (s : UndoRedoStack) : Option EditOperation × UndoRedoStack :=
  match s.redo_stack.getLast? with
  | none => (none, s)
  | some op =>
    (some op, { s with redo_stack := s.redo_stack.dropLast,
                       undo_stack := s.undo_stack ++ [op] })

/-- `UndoRedoStack::can_undo` (undo_redo.rs lines 140-142). -/
def UndoRedoStack.can_undo (s : UndoRedoStack) : Bool :=
  !s.undo_stack.isEmpty

/-- `UndoRedoStack::can_redo` (undo_redo.rs lines 144-146). -/
def UndoRedoStack.can_redo (s : UndoRedoStack) : Bool :=
  !s.redo_stack.isEmpty

/-- `UndoRedoStack::clear` (undo_redo.rs lines 148-151). -/
def UndoRedoStack.clear (s : UndoRedoStack) : UndoRedoStack :=
  { s with undo_stack := [], redo_stack := [] }

/-- `impl Default for UndoRedoStack` (undo_redo.rs lines 155-159): capacity 1000. -/
def UndoRedoStack.defaultStack : UndoRedoStack :=
  UndoRedoStack.new 1000

/-- `EditMode` (editor.rs lines 9-13). -/
inductive EditMode where
  | hex
  | ascii
  deriving DecidableEq, Repr

/-- The outcome of a fallible `HexEditor` method.  `ok` is `Ok(())`, `err` is a
`bail!` with its message, `panic` is a Rust panic. -/
inductive EditResult where
  | ok
  | err (msg : String)
  | panic
  deriving DecidableEq, Repr

/-- `HexEditor` (editor.rs lines 15-30).  `display` is external; only its
`get_visible_lines()` reading matters to the core, kept here as the session
parameter `visible_lines`.  `disk` models the bytes currently persisted at
`file_path` by the storage collaborator. -/
structure HexEditor where
  data : List Nat
  original_data : List Nat
  cursor_pos : Nat
  view_offset : Nat
  mode : EditMode
  readonly : Bool
  modified : Bool
  bytes_per_line : Nat
  half_byte : Option Nat
  undo_redo_stack : UndoRedoStack
  is_new_file : Bool
  visible_lines : Nat
  disk : List Nat
  deriving DecidableEq, Repr

/-- `HexEditor::new_with_size` (editor.rs lines 37-67), after the fill pattern
has been parsed to a byte.  No file exists yet, so `disk` is empty. -/
def HexEditor.new_with_size (fill_byte size : Nat) (bytes_per_line visible_lines : Nat) :
    HexEditor :=
  { data := List.replicate size fill_byte
    original_data := List.replicate size fill_byte
    cursor_pos := 0
    view_offset := 0
    mode := EditMode.hex
    readonly := false
    modified := size > 0
    bytes_per_line := bytes_per_line
    half_byte := none
    undo_redo_stack := UndoRedoStack.defaultStack
    is_new_file := true
    visible_lines := visible_lines
    disk := [] }

/-- `HexEditor::open` (editor.rs lines 69-93), with the file's bytes already
read by the storage collaborator. -/
def HexEditor.open (data : List Nat) (readonly : Bool)
    (bytes_per_line visible_lines : Nat) : HexEditor :=
  { data := data
    original_data := data
    cursor_pos := 0
    view_offset := 0
    mode := EditMode.hex
    readonly := readonly
    modified := false
    bytes_per_line := bytes_per_line
    half_byte := none
    undo_redo_stack := UndoRedoStack.defaultStack
    is_new_file := false
    visible_lines := visible_lines
    disk := data }

/-- `HexEditor::adjust_view` (editor.rs lines 340-350): keep the cursor's row
inside the visible window.  In the second branch the source computes
`cursor_line - visible_lines + 1` on `usize`; there `cursor_line ≥ view_line +
visible_lines`, so the subtraction cannot underflow and truncated `Nat`
subtraction coincides. -/
def HexEditor.adjust_view (e : HexEditor) : HexEditor :=
  let cursor_line := e.cursor_pos / e.bytes_per_line
  let view_line := e.view_offset / e.bytes_per_line
  if cursor_line < view_line then
    { e with view_offset := cursor_line * e.bytes_per_line }
  else if cursor_line ≥ view_line + e.visible_lines then
    { e with view_offset := (cursor_line - e.visible_lines + 1) * e.bytes_per_line }
  else e

/-- `HexEditor::save` (editor.rs lines 96-119).  The file write is modelled as
always succeeding (storage failures belong to the external collaborator). -/
def HexEditor.save (e : HexEditor) : HexEditor × EditResult :=
  if e.readonly then
    (e, .err "File is opened in read-only mode")
  else if !e.modified then
    (e, .ok)
  else
    ({ e with disk := e.data
              original_data := e.data
              modified := false
              undo_redo_stack := e.undo_redo_stack.clear }, .ok)

/-- `HexEditor::undo` (editor.rs lines 121-131). -/
def HexEditor.undo (e : HexEditor) : HexEditor × EditResult :=
  if e.readonly then
    (e, .err "Cannot undo in read-only mode")
  else
    match e.undo_redo_stack.undo with
    | (none, s) => ({ e with undo_redo_stack := s }, .ok)
    | (some operation, s) =>
      match operation.undo e.data with
      | none => (e, .panic)
      | some d => ({ e with data := d, modified := true, undo_redo_stack := s }, .ok)

/-- `HexEditor::redo` (editor.rs lines 133-143). -/
def HexEditor.redo (e : HexEditor) : HexEditor × EditResult :=
  if e.readonly then
    (e, .err "Cannot redo in read-only mode")
  else
    match e.undo_redo_stack.redo with
    | (none, s) => ({ e with undo_redo_stack := s }, .ok)
    | (some operation, s) =>
      match operation.redo e.data with
      | none => (e, .panic)
      | some d => ({ e with data := d, modified := true, undo_redo_stack := s }, .ok)

/-- `HexEditor::move_cursor_up` (editor.rs lines 157-162). -/
def HexEditor.move_cursor_up (e : HexEditor) : HexEditor :=
  if e.cursor_pos ≥ e.bytes_per_line then
    ({ e with cursor_pos := e.cursor_pos - e.bytes_per_line }).adjust_view
  else e

/-- `HexEditor::move_cursor_down` (editor.rs lines 164-173). -/
def HexEditor.move_cursor_down (e : HexEditor) : HexEditor :=
  if e.cursor_pos + e.bytes_per_line < e.data.length then
    ({ e with cursor_pos := e.cursor_pos + e.bytes_per_line }).adjust_view
  else if e.cursor_pos < e.data.length then
    ({ e with cursor_pos := e.data.length - 1 }).adjust_view
  else e

/-- `HexEditor::move_cursor_left` (editor.rs lines 175-180). -/
def HexEditor.move_cursor_left (e : HexEditor) : HexEditor :=
  if e.cursor_pos > 0 then
    ({ e with cursor_pos := e.cursor_pos - 1 }).adjust_view
  else e

/-- `HexEditor::move_cursor_right` (editor.rs lines 182-187). -/
def HexEditor.move_cursor_right (e : HexEditor) : HexEditor :=
  if e.cursor_pos < e.data.length - 1 then
    ({ e with cursor_pos := e.cursor_pos + 1 }).adjust_view
  else e

/-- `HexEditor::page_up` (editor.rs lines 189-199). -/
def HexEditor.page_up (e : HexEditor) : HexEditor :=
  let jump := e.visible_lines * e.bytes_per_line
  if e.cursor_pos > jump then
    ({ e with cursor_pos := e.cursor_pos - jump }).adjust_view
  else
    ({ e with cursor_pos := 0 }).adjust_view

/-- `HexEditor::page_down` (editor.rs lines 201-207). -/
def HexEditor.page_down (e : HexEditor) : HexEditor :=
  let jump := e.visible_lines * e.bytes_per_line
  ({ e with cursor_pos := min (e.cursor_pos + jump) (e.data.length - 1) }).adjust_view

/-- `HexEditor::move_to_line_start` (editor.rs lines 209-211). -/
def HexEditor.move_to_line_start (e : HexEditor) : HexEditor :=
  { e with cursor_pos := e.cursor_pos / e.bytes_per_line * e.bytes_per_line }

/-- `HexEditor::move_to_line_end` (editor.rs lines 213-217). -/
def HexEditor.move_to_line_end (e : HexEditor) : HexEditor :=
  let line_start := e.cursor_pos / e.bytes_per_line * e.bytes_per_line
  let line_end := min (line_start + e.bytes_per_line - 1) (e.data.length - 1)
  { e with cursor_pos := line_end }

/-- `HexEditor::toggle_mode` (editor.rs lines 219-225). -/
def HexEditor.toggle_mode (e : HexEditor) : HexEditor :=
  { e with mode := match e.mode with
                   | EditMode.hex => EditMode.ascii
                   | EditMode.ascii => EditMode.hex
           half_byte := none }

/-- `HexEditor::input_hex_char` (editor.rs lines 227-259), taking the already
converted digit `value = c.to_digit(16)` (so `value < 16`).  The read
`data[cursor_pos]` happens under the guard `cursor_pos < data.len()`, so the
total `getD` coincides with the panicking Rust index. -/
def HexEditor.input_hex_char (e : HexEditor) (value : Nat) : HexEditor × EditResult :=
  if e.readonly || e.mode ≠ EditMode.hex then
    (e, .ok)
  else
    match e.half_byte with
    | some high =>
      if e.cursor_pos ≥ e.data.length then
        ({ e with half_byte := none }, .ok)
      else
        let old_value := e.data.getD e.cursor_pos 0
        let new_value := (high <<< 4) ||| value
        let e := { e with data := e.data.set e.cursor_pos new_value
                          modified := true
                          half_byte := none }
        let e := { e with undo_redo_stack :=
          e.undo_redo_stack.push (EditOperation.new_replace_byte e.cursor_pos old_value new_value) }
        if e.cursor_pos + 1 < e.data.length then
          ({ e with cursor_pos := e.cursor_pos + 1 }, .ok)
        else
          (e, .ok)
    | none =>
      ({ e with half_byte := some value }, .ok)

/-- `HexEditor::input_ascii_char` (editor.rs lines 261-283), taking the byte
value of the typed character. -/
def HexEditor.input_ascii_char (e : HexEditor) (c : Nat) : HexEditor × EditResult :=
  if e.readonly || e.mode ≠ EditMode.ascii then
    (e, .ok)
  else if e.cursor_pos ≥ e.data.length then
    (e, .ok)
  else
    let old_value := e.data.getD e.cursor_pos 0
    let new_value := c
    let e := { e with data := e.data.set e.cursor_pos new_value
                      modified := true }
    let e := { e with undo_redo_stack :=
      e.undo_redo_stack.push (EditOperation.new_replace_byte e.cursor_pos old_value new_value) }
    if e.cursor_pos + 1 < e.data.length then
      ({ e with cursor_pos := e.cursor_pos + 1 }, .ok)
    else
      (e, .ok)

/-- `HexEditor::goto_address` (editor.rs lines 298-322), after the textual
input has been read and parsed to `address` (empty or malformed input returns
with no mutation in the source and is not modelled). -/
def HexEditor.goto_address (e : HexEditor) (address : Nat) : HexEditor :=
  if address < e.data.length then
    ({ e with cursor_pos := address }).adjust_view
  else
    ({ e with cursor_pos := e.data.length - 1 }).adjust_view

/-- `HexEditor::find_pattern` (editor.rs lines 324-338).  The scanned index
range `start..=data_len - pattern_len` (empty when `start` exceeds the upper
end) is embedded as `List.range' start (data_len - pattern_len + 1 - start)`;
the slice comparison `data[i..i + pattern_len] == pattern` becomes a
`take`/`drop` comparison. -/
def HexEditor.find_pattern (e : HexEditor) (pattern : List Nat) (start : Nat) : Option Nat :=
  if pattern = [] then
    none
  else
    let data_len := e.data.length
    let pattern_len := pattern.length
    if pattern_len > data_len then
      none
    else
      (List.range' start (data_len - pattern_len + 1 - start)).find?
        (fun i => (e.data.drop i).take pattern_len == pattern)

/-- `HexEditor::insert_byte` (editor.rs lines 392-413).  `Vec::insert` panics
when the position exceeds the length. -/
def HexEditor.insert_byte (e : HexEditor) (value : Nat) : HexEditor × EditResult :=
  if e.readonly then
    (e, .err "Cannot insert in read-only mode")
  else
    let position := e.cursor_pos
    if position > e.data.length then
      (e, .panic)
    else
      let e := { e with data := e.data.insertIdx position value, modified := true }
      let e := { e with undo_redo_stack :=
        e.undo_redo_stack.push (EditOperation.new_insert_byte position value) }
      if position < e.data.length - 1 then
        (({ e with cursor_pos := e.cursor_pos + 1 }).adjust_view, .ok)
      else
        (e.adjust_view, .ok)

/-- The insertion loop of `HexEditor::insert_bytes` (editor.rs lines 427-429):
`for (i, byte) in bytes { data.insert(position + i, byte) }`. -/
def insertLoop (data : List Nat) (position : Nat) : List Nat → List Nat
  | [] => data
  | b :: bs => insertLoop (data.insertIdx position b) (position + 1) bs

/-- `HexEditor::insert_bytes` (editor.rs lines 415-440).  The first loop
iteration panics when the cursor exceeds the buffer length. -/
def HexEditor.insert_bytes (e : HexEditor) (bytes : List Nat) : HexEditor × EditResult :=
  if e.readonly then
    (e, .err "Cannot insert in read-only mode")
  else if bytes = [] then
    (e, .ok)
  else
    let position := e.cursor_pos
    if position > e.data.length then
      (e, .panic)
    else
      let e := { e with data := insertLoop e.data position bytes, modified := true }
      let e := { e with undo_redo_stack :=
        e.undo_redo_stack.push (EditOperation.new_insert_bytes position bytes) }
      let e := { e with cursor_pos := position + bytes.length }
      (e.adjust_view, .ok)

/-- A client call to the undo/redo stack, used to quantify over arbitrary
sequences of stack operations. -/
inductive StackOp where
  | push (op : EditOperation)
  | undo
  | redo
  | clear
  deriving DecidableEq, Repr

/-- Apply one client call to the stack (discarding the returned operation for
`undo`/`redo`, which only the editor uses). -/
def UndoRedoStack.apply (s : UndoRedoStack) : StackOp → UndoRedoStack
  | .push op => s.push op
  | .undo => s.undo.2
  | .redo => s.redo.2
  | .clear => s.clear

/-- Run a sequence of client calls against the stack. -/
def UndoRedoStack.run (s : UndoRedoStack) (calls : List StackOp) : UndoRedoStack :=
  calls.foldl UndoRedoStack.apply s

/-- The buffer contains the exact byte sequence `pattern` starting at index `i`. -/
def patternAt (data pattern : List Nat) (i : Nat) : Prop :=
  i + pattern.length ≤ data.length ∧ (data.drop i).take pattern.length = pattern

/-- The cursor lies in `[0, max(length-1, 0)]`; with truncated `Nat`
subtraction `length - 1` is that upper end for empty buffers too. -/
def cursorInBounds (e : HexEditor) : Prop :=
  e.cursor_pos ≤ e.data.length - 1

/-- A freshly opened writable editor over `[0xAA, 0xBB]` with the cursor moved
to byte 1 (the pre-state of the spec §8 insert scenario). -/
def editorAB : HexEditor :=
  (HexEditor.open [170, 187] false 16 24).move_cursor_right

/-- A freshly opened writable editor over `[0x41, 0x42, 0x43]` (the spec §8
replace scenario). -/
def editorABC : HexEditor :=
  HexEditor.open [65, 66, 67] false 16 24

/-- `editorABC` after typing hex digits `5` then `a`, i.e. after replacing the
byte at cursor 0 with `0x5A`. -/
def editorABC_edited : HexEditor :=
  ((editorABC.input_hex_char 5).1.input_hex_char 10).1

/-- A read-only editor opened over `[0x01, 0x02]`, unmodified. -/
def editorRO : HexEditor :=
  HexEditor.open [1, 2] true 16 24

/-- An empty writable buffer created by `HexEditor::new` (size 0). -/
def editorEmpty : HexEditor :=
  HexEditor.new_with_size 0 0 16 24

/-- A writable editor over the single byte `[0x41]`, cursor at 0. -/
def editorA : HexEditor :=
  HexEditor.open [65] false 16 24

/-- A writable editor over `[0x00, 0x00]` with the cursor on byte 1 and the
high nibble `5` pending. -/
def editorNib : HexEditor :=
  (((HexEditor.open [0, 0] false 16 24).move_cursor_right).input_hex_char 5).1

/-- `editorEmpty` after typing the hex digit `5`: empty buffer, pending high
nibble. -/
def editorEmptyNib : HexEditor :=
  (editorEmpty.input_hex_char 5).1

@[simp] theorem adjust_view_cursor_pos (e : HexEditor) :
    e.adjust_view.cursor_pos = e.cursor_pos := by
  unfold HexEditor.adjust_view
  dsimp only
  split
  · rfl
  · split <;> rfl

@[simp] theorem adjust_view_data (e : HexEditor) :
    e.adjust_view.data = e.data := by
  unfold HexEditor.adjust_view
  dsimp only
  split
  · rfl
  · split <;> rfl

@[simp] theorem adjust_view_half_byte (e : HexEditor) :
    e.adjust_view.half_byte = e.half_byte := by
  unfold HexEditor.adjust_view
  dsimp only
  split
  · rfl
  · split <;> rfl

/-- C1: the round-trip law fails on the code.  The record
`InsertByte { position: 0, old_value: None, new_value: 0x01 }` — exactly what
`HexEditor::insert_byte` logs when inserting `0x01` at cursor 0 — applied
forward to the buffer `[0x41]` overwrites byte 0 instead of inserting
(yielding `[0x01]`), and its inverse then removes byte 0, yielding `[]`
rather than the pre-state `[0x41]`.  Neither step panics. -/
theorem insertByte_roundTrip_violation :
    ((EditOperation.new_insert_byte 0 1).redo [65]).bind
        (EditOperation.new_insert_byte 0 1).undo = some [] ∧
    (EditOperation.new_insert_byte 0 1).redo [65] = some [1] ∧
    some ([] : List Nat) ≠ some [65] := by
  decide

/-- C2: undoing a single mutation does not restore the original bytes.  From
the buffer `[0xAA, 0xBB]` with cursor 1, `insert_bytes [0x01, 0x02]` yields
`[0xAA, 0x01, 0x02, 0xBB]`, but one `undo()` then truncates the buffer to
`[0xAA]` (the logged insert record has no old bytes, so its inverse is
`truncate(position)`), not the original `[0xAA, 0xBB]`. -/
theorem undo_does_not_restore_after_insert_bytes :
    (editorAB.insert_bytes [1, 2]).1.data = [170, 1, 2, 187] ∧
    editorAB.data = [170, 187] ∧
    (editorAB.insert_bytes [1, 2]).1.undo.1.data = [170] ∧
    (editorAB.insert_bytes [1, 2]).1.undo.2 = EditResult.ok := by
  decide

/-- C5: the spec §8 insert scenario fails on the code.  Inserting
`[0x01, 0x02]` at position 1 into `[0xAA, 0xBB]` does give
`[0xAA, 0x01, 0x02, 0xBB]` with cursor 3, but `undo()` truncates the data to
`[0xAA]` instead of restoring `[0xAA, 0xBB]`, and leaves the cursor at 3
instead of restoring the pre-insert position 1. -/
theorem insert_bytes_undo_scenario_violation :
    editorAB.cursor_pos = 1 ∧
    (editorAB.insert_bytes [1, 2]).1.data = [170, 1, 2, 187] ∧
    (editorAB.insert_bytes [1, 2]).1.cursor_pos = 3 ∧
    (editorAB.insert_bytes [1, 2]).1.undo.1.data = [170] ∧
    (editorAB.insert_bytes [1, 2]).1.undo.1.cursor_pos = 3 := by
  decide

/-- C3 counterexample: `save()` on a read-only, unmodified buffer does not
succeed as a no-op — the read-only check precedes the unmodified check, so it
fails with the read-only error. -/
theorem save_readonly_unmodified_fails :
    editorRO.readonly = true ∧
    editorRO.modified = false ∧
    editorRO.save.2 = EditResult.err "File is opened in read-only mode" ∧
    ¬ editorRO.save.2 = EditResult.ok := by
  decide

/-- C3 (amended): `save()` on a read-only buffer fails with the read-only
error whether or not the buffer is modified, leaving the whole editor state
unchanged; on a writable unmodified buffer it succeeds as a no-op; on a
writable modified buffer it persists the data, sets `modified` to false, and
clears both the undo and redo logs. -/
theorem save_spec (e : HexEditor) :
    (e.readonly = true →
      e.save = (e, EditResult.err "File is opened in read-only mode")) ∧
    (e.readonly = false → e.modified = false → e.save = (e, EditResult.ok)) ∧
    (e.readonly = false → e.modified = true →
      e.save = ({ e with disk := e.data
                         original_data := e.data
                         modified := false
                         undo_redo_stack := e.undo_redo_stack.clear }, EditResult.ok)) := by
  refine ⟨fun hro => ?_, fun hro hm => ?_, fun hro hm => ?_⟩
  · simp [HexEditor.save, hro]
  · simp [HexEditor.save, hro, hm]
  · simp [HexEditor.save, hro, hm]

/-- C3 witness: the three `save_spec` branches at concrete editors. -/
theorem save_spec_witness :
    editorRO.readonly = true ∧
    editorRO.save = (editorRO, EditResult.err "File is opened in read-only mode") :=
  ⟨by decide, (save_spec editorRO).1 (by decide)⟩

/-- C6 counterexample: after replacing byte 0 of the freshly loaded
`[0x41, 0x42, 0x43]` with `0x5A` and undoing, the bytes are restored but
`modified` is `true`, not the pre-edit `false` the claim requires. -/
theorem undo_sets_modified_true :
    editorABC.modified = false ∧
    editorABC_edited.undo.1.data = [65, 66, 67] ∧
    editorABC_edited.undo.1.modified = true ∧
    ¬ editorABC_edited.undo.1.modified = false := by
  decide

/-- C6 (amended): `undo()` and `redo()` set `modified` to `true`
unconditionally whenever they replay an operation; in the spec §8 replace
scenario, undo restores `[0x41, 0x42, 0x43]` but leaves `modified = true`
rather than the pre-edit `false`, and redo reapplies `[0x5A, 0x42, 0x43]`
with `modified = true`. -/
theorem undo_redo_modified_scenario :
    editorABC.modified = false ∧
    editorABC_edited.data = [90, 66, 67] ∧
    editorABC_edited.modified = true ∧
    editorABC_edited.undo.1.data = [65, 66, 67] ∧
    editorABC_edited.undo.1.modified = true ∧
    editorABC_edited.undo.1.redo.1.data = [90, 66, 67] ∧
    editorABC_edited.undo.1.redo.1.modified = true := by
  decide

/-- C7 counterexample: moving the cursor while the high nibble `5` is pending
does not clear the pending nibble, and the next hex digit `a` completes the
byte `0x5A` at the new, unrelated cursor position 0. -/
theorem move_cursor_keeps_pending_nibble :
    editorNib.half_byte = some 5 ∧
    editorNib.move_cursor_left.half_byte = some 5 ∧
    ¬ editorNib.move_cursor_left.half_byte = none ∧
    ((editorNib.move_cursor_left).input_hex_char 10).1.data = [90, 0] := by
  decide

/-- C7 (amended): toggling the edit mode clears the pending nibble state, but
the cursor navigation operations (left/right/up/down, page up/down, line
start/end, goto) leave the pending nibble unchanged, so a hex digit typed
after such a move completes a byte at the new cursor position using the old
high nibble. -/
theorem toggle_clears_nav_keeps_pending (e : HexEditor) :
    e.toggle_mode.half_byte = none ∧
    e.move_cursor_left.half_byte = e.half_byte ∧
    e.move_cursor_right.half_byte = e.half_byte ∧
    e.move_cursor_up.half_byte = e.half_byte ∧
    e.move_cursor_down.half_byte = e.half_byte ∧
    e.page_up.half_byte = e.half_byte ∧
    e.page_down.half_byte = e.half_byte ∧
    e.move_to_line_start.half_byte = e.half_byte ∧
    e.move_to_line_end.half_byte = e.half_byte ∧
    (∀ address, (e.goto_address address).half_byte = e.half_byte) := by
  refine ⟨rfl, ?_, ?_, ?_, ?_, ?_, ?_, rfl, rfl, ?_⟩
  · unfold HexEditor.move_cursor_left
    split <;> simp
  · unfold HexEditor.move_cursor_right
    split <;> simp
  · unfold HexEditor.move_cursor_up
    split <;> simp
  · unfold HexEditor.move_cursor_down
    split
    · simp
    · split <;> simp
  · unfold HexEditor.page_up
    dsimp only
    split <;> simp
  · unfold HexEditor.page_down
    simp
  · intro address
    unfold HexEditor.goto_address
    split <;> simp

/-- C10: a hex digit arriving while a high nibble is pending and the cursor
is at or beyond the buffer length (in hex mode on a writable buffer, the only
states in which a nibble can be pending) clears the pending nibble and
returns `Ok`, leaving the data, cursor, modified flag and both undo/redo logs
unchanged. -/
theorem input_hex_char_oob_frame (e : HexEditor) (value high : Nat)
    (hro : e.readonly = false) (hm : e.mode = EditMode.hex)
    (hhb : e.half_byte = some high) (hc : e.data.length ≤ e.cursor_pos) :
    (e.input_hex_char value).2 = EditResult.ok ∧
    (e.input_hex_char value).1.half_byte = none ∧
    (e.input_hex_char value).1.data = e.data ∧
    (e.input_hex_char value).1.cursor_pos = e.cursor_pos ∧
    (e.input_hex_char value).1.modified = e.modified ∧
    (e.input_hex_char value).1.undo_redo_stack = e.undo_redo_stack := by
  have h : e.input_hex_char value = ({ e with half_byte := none }, EditResult.ok) := by
    unfold HexEditor.input_hex_char
    simp [hro, hm, hhb, hc]
  rw [h]
  exact ⟨rfl, rfl, rfl, rfl, rfl, rfl⟩

/-- C10 witness: the empty buffer with the pending nibble `5`. -/
theorem input_hex_char_oob_frame_witness :
    editorEmptyNib.readonly = false ∧
    editorEmptyNib.mode = EditMode.hex ∧
    editorEmptyNib.half_byte = some 5 ∧
    editorEmptyNib.data.length ≤ editorEmptyNib.cursor_pos ∧
    ((editorEmptyNib.input_hex_char 10).2 = EditResult.ok ∧
     (editorEmptyNib.input_hex_char 10).1.half_byte = none ∧
     (editorEmptyNib.input_hex_char 10).1.data = editorEmptyNib.data ∧
     (editorEmptyNib.input_hex_char 10).1.cursor_pos = editorEmptyNib.cursor_pos ∧
     (editorEmptyNib.input_hex_char 10).1.modified = editorEmptyNib.modified ∧
     (editorEmptyNib.input_hex_char 10).1.undo_redo_stack = editorEmptyNib.undo_redo_stack) :=
  ⟨by decide, by decide, by decide, by decide,
   input_hex_char_oob_frame editorEmptyNib 10 5 (by decide) (by decide) (by decide) (by decide)⟩

theorem push_undo_stack_eq (s : UndoRedoStack) (o : EditOperation) :
    (s.push o).undo_stack =
      if s.undo_stack.length + 1 > s.max_operations
      then (s.undo_stack ++ [o]).drop 1
      else s.undo_stack ++ [o] := by
  simp [UndoRedoStack.push]

theorem push_max_operations (s : UndoRedoStack) (o : EditOperation) :
    (s.push o).max_operations = s.max_operations := rfl

theorem apply_max_operations (s : UndoRedoStack) (o : StackOp) :
    (s.apply o).max_operations = s.max_operations := by
  cases o with
  | push op => rfl
  | undo =>
    unfold UndoRedoStack.apply UndoRedoStack.undo
    cases s.undo_stack.getLast? <;> rfl
  | redo =>
    unfold UndoRedoStack.apply UndoRedoStack.redo
    cases s.redo_stack.getLast? <;> rfl
  | clear => rfl

theorem apply_length_inv (s : UndoRedoStack) (o : StackOp)
    (h : s.undo_stack.length + s.redo_stack.length ≤ s.max_operations) :
    (s.apply o).undo_stack.length + (s.apply o).redo_stack.length ≤
      (s.apply o).max_operations := by
  rw [apply_max_operations]
  cases o with
  | push op =>
    show (s.push op).undo_stack.length + (s.push op).redo_stack.length ≤ _
    rw [push_undo_stack_eq]
    have : (s.push op).redo_stack = [] := rfl
    rw [this]
    split
    · simp
      omega
    next hle =>
      simp at hle ⊢
      omega
  | undo =>
    unfold UndoRedoStack.apply UndoRedoStack.undo
    cases hu : s.undo_stack.getLast? with
    | none => simpa using h
    | some op =>
      have hne : s.undo_stack ≠ [] := by
        intro he
        rw [he] at hu
        simp at hu
      have hpos : 0 < s.undo_stack.length := List.length_pos.mpr hne
      simp [List.length_dropLast]
      omega
  | redo =>
    unfold UndoRedoStack.apply UndoRedoStack.redo
    cases hr : s.redo_stack.getLast? with
    | none => simpa using h
    | some op =>
      have hne : s.redo_stack ≠ [] := by
        intro he
        rw [he] at hr
        simp at hr
      have hpos : 0 < s.redo_stack.length := List.length_pos.mpr hne
      simp [List.length_dropLast]
      omega
  | clear =>
    simp [UndoRedoStack.apply, UndoRedoStack.clear]

theorem run_max_operations (calls : List StackOp) (s : UndoRedoStack) :
    (s.run calls).max_operations = s.max_operations := by
  induction calls generalizing s with
  | nil => rfl
  | cons c cs ih =>
    show ((s.apply c).run cs).max_operations = _
    rw [ih, apply_max_operations]

theorem run_length_inv (calls : List StackOp) (s : UndoRedoStack)
    (h : s.undo_stack.length + s.redo_stack.length ≤ s.max_operations) :
    (s.run calls).undo_stack.length + (s.run calls).redo_stack.length ≤
      (s.run calls).max_operations := by
  induction calls generalizing s with
  | nil => exact h
  | cons c cs ih =>
    show ((s.apply c).run cs).undo_stack.length + _ ≤ _
    exact ih _ (apply_length_inv s c h)

theorem foldl_push_undo_stack (ops : List EditOperation) (s : UndoRedoStack)
    (h : s.undo_stack.length ≤ s.max_operations) :
    (ops.foldl UndoRedoStack.push s).undo_stack =
      (s.undo_stack ++ ops).drop
        (s.undo_stack.length + ops.length - s.max_operations) := by
  induction ops generalizing s with
  | nil =>
    simp [Nat.sub_eq_zero_of_le h]
  | cons o os ih =>
    rw [List.foldl_cons]
    by_cases hc : s.undo_stack.length + 1 > s.max_operations
    · have hlen : s.undo_stack.length = s.max_operations := by omega
      have hpu : (s.push o).undo_stack = (s.undo_stack ++ [o]).drop 1 := by
        rw [push_undo_stack_eq, if_pos hc]
      have hplen : (s.push o).undo_stack.length = s.max_operations := by
        rw [hpu]
        simp
        omega
      have hinv : (s.push o).undo_stack.length ≤ (s.push o).max_operations := by
        rw [hplen, push_max_operations]
      rw [ih (s.push o) hinv, hpu, push_max_operations]
      rw [← List.drop_append_of_le_length
            (show 1 ≤ (s.undo_stack ++ [o]).length by simp)]
      rw [List.drop_drop]
      have h1 : (s.undo_stack ++ [o]) ++ os = s.undo_stack ++ o :: os := by
        simp
      rw [h1]
      congr 1
      simp
      omega
    · have hpu : (s.push o).undo_stack = s.undo_stack ++ [o] := by
        rw [push_undo_stack_eq, if_neg hc]
      have hinv : (s.push o).undo_stack.length ≤ (s.push o).max_operations := by
        rw [hpu, push_max_operations]
        simp
        omega
      rw [ih (s.push o) hinv, hpu, push_max_operations]
      have h1 : (s.undo_stack ++ [o]) ++ os = s.undo_stack ++ o :: os := by
        simp
      rw [h1]
      congr 1
      simp
      omega

/-- C8: pushing `C+1` operations onto a fresh stack of capacity `C` leaves
exactly `C` entries in the undo log with the oldest discarded, after any
sequence of stack calls (push, undo, redo, clear) the undo log's length never
exceeds `C`, and the default capacity is 1000. -/
theorem capacity_eviction (C : Nat) (ops : List EditOperation)
    (h : ops.length = C + 1) :
    (ops.foldl UndoRedoStack.push (UndoRedoStack.new C)).undo_stack = ops.drop 1 ∧
    (ops.foldl UndoRedoStack.push (UndoRedoStack.new C)).undo_stack.length = C ∧
    (∀ calls : List StackOp,
      ((UndoRedoStack.new C).run calls).undo_stack.length ≤ C) ∧
    UndoRedoStack.defaultStack.max_operations = 1000 := by
  have hbase : (UndoRedoStack.new C).undo_stack.length ≤
      (UndoRedoStack.new C).max_operations := by
    simp [UndoRedoStack.new]
  have h1 := foldl_push_undo_stack ops (UndoRedoStack.new C) hbase
  have hnew : (UndoRedoStack.new C).undo_stack = [] := rfl
  have hmax : (UndoRedoStack.new C).max_operations = C := rfl
  rw [hnew, hmax] at h1
  simp only [List.nil_append, List.length_nil, Nat.zero_add, h] at h1
  have hdrop : C + 1 - C = 1 := by omega
  rw [hdrop] at h1
  refine ⟨h1, ?_, ?_, rfl⟩
  · rw [h1]
    simp [h]
  · intro calls
    have h2 := run_length_inv calls (UndoRedoStack.new C) (by simp [UndoRedoStack.new])
    have h3 := run_max_operations calls (UndoRedoStack.new C)
    rw [hmax] at h3
    omega

/-- C8 witness: capacity 2, three pushes. -/
theorem capacity_eviction_witness :
    ([EditOperation.deleteByte 0 1, EditOperation.deleteByte 1 2,
        EditOperation.deleteByte 2 3] : List EditOperation).length = 2 + 1 ∧
    (([EditOperation.deleteByte 0 1, EditOperation.deleteByte 1 2,
        EditOperation.deleteByte 2 3].foldl UndoRedoStack.push
          (UndoRedoStack.new 2)).undo_stack =
        [EditOperation.deleteByte 0 1, EditOperation.deleteByte 1 2,
          EditOperation.deleteByte 2 3].drop 1 ∧
      ([EditOperation.deleteByte 0 1, EditOperation.deleteByte 1 2,
        EditOperation.deleteByte 2 3].foldl UndoRedoStack.push
          (UndoRedoStack.new 2)).undo_stack.length = 2 ∧
      (∀ calls : List StackOp,
        ((UndoRedoStack.new 2).run calls).undo_stack.length ≤ 2) ∧
      UndoRedoStack.defaultStack.max_operations = 1000) :=
  ⟨by decide,
   capacity_eviction 2
     [EditOperation.deleteByte 0 1, EditOperation.deleteByte 1 2,
       EditOperation.deleteByte 2 3] (by decide)⟩

theorem find?_range'_least {p : Nat → Bool} {s n a : Nat}
    (h : (List.range' s n).find? p = some a) :
    p a = true ∧ s ≤ a ∧ a < s + n ∧ ∀ j, s ≤ j → j < a → p j = false := by
  induction n generalizing s with
  | zero => simp at h
  | succ n ih =>
    rw [List.range'_succ] at h
    by_cases hp : p s = true
    · rw [List.find?_cons_of_pos _ hp] at h
      injection h with h
      subst h
      exact ⟨hp, Nat.le_refl _, by omega, fun j h1 h2 => absurd h2 (by omega)⟩
    · rw [List.find?_cons_of_neg _ hp] at h
      obtain ⟨hpa, hsa, hlt, hmin⟩ := ih h
      refine ⟨hpa, by omega, by omega, fun j hj1 hj2 => ?_⟩
      rcases Nat.eq_or_lt_of_le hj1 with he | hgt
      · rw [← he]
        simp at hp
        exact hp
      · exact hmin j (by omega) hj2

/-- C9: `find_pattern(pattern, start)` returns `some p` exactly for the
smallest index `p ≥ start` at which the buffer contains the exact byte
sequence, and returns `none` when the pattern is empty or no occurrence at or
after `start` exists (in particular when the pattern is longer than the
remaining buffer).  Soundness: a `some p` result is the least occurrence at or
after `start`.  Negative case: empty pattern or no occurrence yields `none`.
Completeness: a nonempty pattern occurring anywhere at or after `start` forces
a `some` result, so `none` is never returned when an occurrence exists. -/
theorem find_pattern_correct (e : HexEditor) (pattern : List Nat) (start : Nat) :
    (∀ p, e.find_pattern pattern start = some p →
      pattern ≠ [] ∧ start ≤ p ∧ patternAt e.data pattern p ∧
        ∀ j, start ≤ j → j < p → ¬ patternAt e.data pattern j) ∧
    ((pattern = [] ∨ ∀ i, start ≤ i → ¬ patternAt e.data pattern i) →
      e.find_pattern pattern start = none) ∧
    (∀ i, pattern ≠ [] → start ≤ i → patternAt e.data pattern i →
      ∃ p, e.find_pattern pattern start = some p) := by
  refine ⟨?_, ?_, ?_⟩
  · intro p hp
    unfold HexEditor.find_pattern at hp
    by_cases hemp : pattern = []
    · rw [if_pos hemp] at hp
      exact absurd hp (by simp)
    rw [if_neg hemp] at hp
    dsimp only at hp
    by_cases hlen : pattern.length > e.data.length
    · rw [if_pos hlen] at hp
      exact absurd hp (by simp)
    rw [if_neg hlen] at hp
    obtain ⟨hpa, hsp, hlt, hmin⟩ := find?_range'_least hp
    refine ⟨hemp, hsp, ⟨by omega, eq_of_beq hpa⟩, ?_⟩
    intro j hj1 hj2 hat
    have hbeq : ((e.data.drop j).take pattern.length == pattern) = true :=
      beq_of_eq hat.2
    rw [hmin j hj1 hj2] at hbeq
    exact absurd hbeq (by simp)
  · intro hcase
    unfold HexEditor.find_pattern
    by_cases hemp : pattern = []
    · rw [if_pos hemp]
    rw [if_neg hemp]
    dsimp only
    by_cases hlen : pattern.length > e.data.length
    · rw [if_pos hlen]
    rw [if_neg hlen]
    rcases hcase with hemp' | hno
    · exact absurd hemp' hemp
    rw [List.find?_eq_none]
    intro x hx hpx
    rw [List.mem_range'] at hx
    obtain ⟨i, hi, hxe⟩ := hx
    exact hno x (by omega) ⟨by omega, eq_of_beq hpx⟩
  · intro i hemp hsi hat
    have hti := hat.1
    unfold HexEditor.find_pattern
    rw [if_neg hemp]
    dsimp only
    rw [if_neg (show ¬ pattern.length > e.data.length by omega)]
    cases hfind : (List.range' start (e.data.length - pattern.length + 1 - start)).find?
        (fun j => (e.data.drop j).take pattern.length == pattern) with
    | some p => exact ⟨p, rfl⟩
    | none =>
      exfalso
      rw [List.find?_eq_none] at hfind
      have hmem : i ∈ List.range' start (e.data.length - pattern.length + 1 - start) := by
        rw [List.mem_range']
        exact ⟨i - start, by omega, by omega⟩
      exact hfind i hmem (beq_of_eq hat.2)

/-- C9 witness: the spec §8 search scenario, `[0x10, 0x20]` over
`[0x00, 0x10, 0x20, 0x30]` found at position 1 with no earlier occurrence,
and the completeness conjunct forced by the occurrence at index 1. -/
theorem find_pattern_correct_witness :
    (HexEditor.open [0, 16, 32, 48] false 16 24).find_pattern [16, 32] 0 = some 1 ∧
    ([16, 32] ≠ ([] : List Nat) ∧ 0 ≤ 1 ∧
      patternAt (HexEditor.open [0, 16, 32, 48] false 16 24).data [16, 32] 1 ∧
      ∀ j, 0 ≤ j → j < 1 →
        ¬ patternAt (HexEditor.open [0, 16, 32, 48] false 16 24).data [16, 32] j) ∧
    (∃ p, (HexEditor.open [0, 16, 32, 48] false 16 24).find_pattern [16, 32] 0 = some p) :=
  ⟨by decide,
   (find_pattern_correct (HexEditor.open [0, 16, 32, 48] false 16 24) [16, 32] 0).1 1
     (by decide),
   (find_pattern_correct (HexEditor.open [0, 16, 32, 48] false 16 24) [16, 32] 0).2.2 1
     (by decide) (by decide) (by unfold patternAt; decide)⟩

theorem insertLoop_length (bytes : List Nat) (data : List Nat) (pos : Nat)
    (h : pos ≤ data.length) :
    (insertLoop data pos bytes).length = data.length + bytes.length := by
  induction bytes generalizing data pos with
  | nil => simp [insertLoop]
  | cons b bs ih =>
    rw [insertLoop]
    rw [ih (data.insertIdx pos b) (pos + 1)
          (by rw [List.length_insertIdx pos data h]; omega)]
    rw [List.length_insertIdx pos data h]
    simp
    omega

/-- C4 counterexample: `insert_bytes [0x01]` on the empty buffer leaves the
cursor at 1 with buffer length 1, i.e. at the buffer length and outside
`[0, max(length-1, 0)]`; and `insert_byte` on `[0x41]` followed by `undo()`
leaves the cursor at 1 with buffer length 1 as well, because undo/redo never
adjust the cursor. -/
theorem cursor_out_of_bounds_cases :
    (editorEmpty.insert_bytes [1]).1.cursor_pos = 1 ∧
    (editorEmpty.insert_bytes [1]).1.data.length = 1 ∧
    ¬ (editorEmpty.insert_bytes [1]).1.cursor_pos ≤
        (editorEmpty.insert_bytes [1]).1.data.length - 1 ∧
    (editorA.insert_byte 1).1.undo.1.cursor_pos = 1 ∧
    (editorA.insert_byte 1).1.undo.1.data.length = 1 := by
  decide

/-- C4 (amended): with a positive row width, every cursor-move operation
(left/right/up/down, page up/down, line start/end, goto) and every replace
input keeps the cursor in `[0, max(length-1, 0)]`, as does `insert_byte`; on
an empty buffer the cursor is 0 and the four arrow moves return the state
unchanged.  `insert_bytes`, however, only guarantees cursor ≤ length: the
cursor lands at the length exactly when the buffer was empty; and undo/redo
leave the cursor unchanged even when the buffer shrinks. -/
theorem cursor_bounds (e : HexEditor) (hbpl : 0 < e.bytes_per_line)
    (hb : cursorInBounds e) :
    cursorInBounds e.move_cursor_left ∧
    cursorInBounds e.move_cursor_right ∧
    cursorInBounds e.move_cursor_up ∧
    cursorInBounds e.move_cursor_down ∧
    cursorInBounds e.page_up ∧
    cursorInBounds e.page_down ∧
    cursorInBounds e.move_to_line_start ∧
    cursorInBounds e.move_to_line_end ∧
    (∀ address, cursorInBounds (e.goto_address address)) ∧
    (∀ v, cursorInBounds (e.input_hex_char v).1) ∧
    (∀ c, cursorInBounds (e.input_ascii_char c).1) ∧
    (∀ v, cursorInBounds (e.insert_byte v).1) ∧
    (∀ bytes,
      (e.insert_bytes bytes).1.cursor_pos ≤ (e.insert_bytes bytes).1.data.length) ∧
    (e.data = [] → e.cursor_pos = 0 ∧ e.move_cursor_left = e ∧
      e.move_cursor_right = e ∧ e.move_cursor_up = e ∧ e.move_cursor_down = e) := by
  unfold cursorInBounds at hb ⊢
  refine ⟨?_, ?_, ?_, ?_, ?_, ?_, ?_, ?_, ?_, ?_, ?_, ?_, ?_, ?_⟩
  · unfold HexEditor.move_cursor_left
    split
    · simp
      omega
    · exact hb
  · unfold HexEditor.move_cursor_right
    split
    next h => simp; omega
    next => exact hb
  · unfold HexEditor.move_cursor_up
    split
    · simp
      omega
    · exact hb
  · unfold HexEditor.move_cursor_down
    split
    next h => simp; omega
    next =>
      split
      next h => simp
      next => exact hb
  · unfold HexEditor.page_up
    dsimp only
    split
    · simp
      omega
    · simp
  · unfold HexEditor.page_down
    dsimp only
    simp
  · unfold HexEditor.move_to_line_start
    simp
    have := Nat.div_mul_le_self e.cursor_pos e.bytes_per_line
    omega
  · unfold HexEditor.move_to_line_end
    dsimp only
    simp
  · intro address
    unfold HexEditor.goto_address
    split
    next h => simp; omega
    next => simp
  · intro v
    unfold HexEditor.input_hex_char
    split
    · exact hb
    · split
      · split
        · simpa using hb
        · dsimp only
          split
          next h => simp at h ⊢; omega
          next h => simp at h ⊢; omega
      · simpa using hb
  · intro c
    unfold HexEditor.input_ascii_char
    split
    · exact hb
    · split
      · exact hb
      · dsimp only
        split
        next h => simp at h ⊢; omega
        next h => simp at h ⊢; omega
  · intro v
    unfold HexEditor.insert_byte
    split
    · exact hb
    · dsimp only
      split
      next hpos => exact hb
      next hpos =>
        have hle : e.cursor_pos ≤ e.data.length := by omega
        split
        next h =>
          simp [List.length_insertIdx e.cursor_pos e.data hle] at h ⊢
          omega
        next h =>
          simp [List.length_insertIdx e.cursor_pos e.data hle] at h ⊢
          omega
  · intro bytes
    unfold HexEditor.insert_bytes
    split
    · simp
      omega
    · split
      · simp
        omega
      · dsimp only
        split
        next hpos => simp; omega
        next hpos =>
          have hle : e.cursor_pos ≤ e.data.length := by omega
          simp [insertLoop_length bytes e.data e.cursor_pos hle]
          omega
  · intro hdata
    have hlen0 : e.data.length = 0 := by rw [hdata]; rfl
    have hcur : e.cursor_pos = 0 := by omega
    refine ⟨hcur, ?_, ?_, ?_, ?_⟩
    · unfold HexEditor.move_cursor_left
      rw [if_neg (by omega)]
    · unfold HexEditor.move_cursor_right
      rw [if_neg (by omega)]
    · unfold HexEditor.move_cursor_up
      rw [if_neg (by omega)]
    · unfold HexEditor.move_cursor_down
      rw [if_neg (by omega), if_neg (by omega)]

/-- C4 witness: the amended cursor bounds at a concrete two-byte editor. -/
theorem cursor_bounds_witness :
    0 < editorAB.bytes_per_line ∧ cursorInBounds editorAB ∧
    (cursorInBounds editorAB.move_cursor_left ∧
     cursorInBounds editorAB.move_cursor_right ∧
     cursorInBounds editorAB.move_cursor_up ∧
     cursorInBounds editorAB.move_cursor_down ∧
     cursorInBounds editorAB.page_up ∧
     cursorInBounds editorAB.page_down ∧
     cursorInBounds editorAB.move_to_line_start ∧
     cursorInBounds editorAB.move_to_line_end ∧
     (∀ address, cursorInBounds (editorAB.goto_address address)) ∧
     (∀ v, cursorInBounds (editorAB.input_hex_char v).1) ∧
     (∀ c, cursorInBounds (editorAB.input_ascii_char c).1) ∧
     (∀ v, cursorInBounds (editorAB.insert_byte v).1) ∧
     (∀ bytes, (editorAB.insert_bytes bytes).1.cursor_pos ≤
        (editorAB.insert_bytes bytes).1.data.length) ∧
     (editorAB.data = [] → editorAB.cursor_pos = 0 ∧
        editorAB.move_cursor_left = editorAB ∧
        editorAB.move_cursor_right = editorAB ∧
        editorAB.move_cursor_up = editorAB ∧
        editorAB.move_cursor_down = editorAB)) :=
  ⟨by decide, by unfold cursorInBounds; decide,
   cursor_bounds editorAB (by decide) (by unfold cursorInBounds; decide)⟩
